import Mathlib

/-!
Verification of the technical-indicator core of Quantauri_PG (src/base.rs).

A price series is modelled as a `List ℝ`; slice indexing `v[i]` is modelled
by `List.getD v i 0` (all claims carry in-range hypotheses, so the default
is never relied upon).  The Rust `f64` arithmetic is modelled by exact real
arithmetic; `f64::sqrt` by `Real.sqrt`.  A Rust panic (out-of-bounds index)
is modelled by `Option.none` in the `Checked` variants.
-/

open Finset

/-- Value of the simple moving average at index `i`, mirroring the two loops
of `sma` in base.rs: for `i < window_size` the first loop stores the mean of
the prefix `v[0 ..= i]`; from `window_size` on the second loop slides the
window, `result[i] = result[i-1] + (v[i] - v[i-window_size]) / window_size`.
(The code assumes `window_size ≥ 1`; with `window_size = 0` the Rust loop
underflows `i-1` and panics, see `smaChecked`.) -/
noncomputable def smaVal (v : List ℝ) (w : ℕ) : ℕ → ℝ
  | 0 => v.getD 0 0
  | i + 1 =>
    if i + 1 < w then (∑ j in Finset.range (i + 2), v.getD j 0) / ((i : ℝ) + 2)
    else smaVal v w i + (v.getD (i + 1) 0 - v.getD (i + 1 - w) 0) / (w : ℝ)

/-- `sma` from base.rs: the output vector has one entry per input index. -/
noncomputable def sma (v : List ℝ) (w : ℕ) : List ℝ :=
  (List.range v.length).map (smaVal v w)

/-- Value of the exponential moving average at index `i`, mirroring `ema`
in base.rs: `result[0] = v[0]` and
`result[i] = alpha * v[i] + (1 - alpha) * result[i-1]` with
`alpha = 2 / (window_size + 1)`. -/
noncomputable def emaVal (v : List ℝ) (w : ℕ) : ℕ → ℝ
  | 0 => v.getD 0 0
  | i + 1 =>
    2 / ((w : ℝ) + 1) * v.getD (i + 1) 0 + (1 - 2 / ((w : ℝ) + 1)) * emaVal v w i

/-- `ema` from base.rs. -/
noncomputable def ema (v : List ℝ) (w : ℕ) : List ℝ :=
  (List.range v.length).map (emaVal v w)

/-- Value of the moving standard deviation at index `i`, mirroring `mstd` in
base.rs: entries below `window_size - 1` stay at the initial `0`; from
`window_size - 1` on, the mean of the squared deviations of
`v[i], v[i-1], …, v[i-window_size+1]` from `sma[i]`, then its square root. -/
noncomputable def mstdVal (v : List ℝ) (w : ℕ) (m : List ℝ) (i : ℕ) : ℝ :=
  if w - 1 ≤ i then
    Real.sqrt ((∑ x in Finset.range w, (v.getD (i - x) 0 - m.getD i 0) ^ 2) / (w : ℝ))
  else 0

/-- `mstd` from base.rs. -/
noncomputable def mstd (v : List ℝ) (w : ℕ) (m : List ℝ) : List ℝ :=
  (List.range v.length).map (mstdVal v w m)

/-- `bollinger_band` from base.rs: `ubb[i] = sma[i] + amplitude * mstd[i]`,
`lbb[i] = sma[i] - amplitude * mstd[i]`. -/
noncomputable def bollinger_band (v : List ℝ) (amplitude : ℝ) (s m : List ℝ) :
    List ℝ × List ℝ :=
  ((List.range v.length).map (fun i => s.getD i 0 + amplitude * m.getD i 0),
   (List.range v.length).map (fun i => s.getD i 0 - amplitude * m.getD i 0))

/-- `macd` from base.rs: `macd = ema(v, 12).sub_v(&ema(v, 26))`
(elementwise difference), `signal = ema(&macd, 9)`. -/
noncomputable def macd (v : List ℝ) : List ℝ × List ℝ :=
  (List.zipWith (fun a b => a - b) (ema v 12) (ema v 26),
   ema (List.zipWith (fun a b => a - b) (ema v 12) (ema v 26)) 9)

/-- The `BollingerBand` struct from base.rs. -/
structure BollingerBand where
  period : ℕ
  amplitude : ℝ
  ubb : List ℝ
  mbb : List ℝ
  lbb : List ℝ

/-- `BollingerBand::new`. -/
def BollingerBand.new (p : ℕ) (a : ℝ) : BollingerBand :=
  ⟨p, a, [], [], []⟩

/-- `BollingerBand::bb`: recompute `(ubb, sma, lbb)` from scratch. -/
noncomputable def BollingerBand.bb (b : BollingerBand) (v : List ℝ) :
    List ℝ × List ℝ × List ℝ :=
  let s := sma v b.period
  let ms := mstd v b.period s
  ((bollinger_band v b.amplitude s ms).1, s, (bollinger_band v b.amplitude s ms).2)

/-- `BollingerBand::bb_mut`: run `bb` and store the three series. -/
noncomputable def BollingerBand.bb_mut (b : BollingerBand) (v : List ℝ) :
    BollingerBand :=
  ⟨b.period, b.amplitude, (b.bb v).1, (b.bb v).2.1, (b.bb v).2.2⟩

/-- `BollingerBand::per_b`: if the cached `ubb` is non-empty use the cached
bands — with the epsilon `1e-3` added to the denominator exactly when
`ubb[i] == lbb[i]` — otherwise recompute the bands transiently and divide
with no epsilon guard. -/
noncomputable def BollingerBand.per_b (b : BollingerBand) (v : List ℝ) : List ℝ :=
  if 0 < b.ubb.length then
    (List.range v.length).map (fun i =>
      if b.ubb.getD i 0 = b.lbb.getD i 0 then
        (v.getD i 0 - b.lbb.getD i 0) / (b.ubb.getD i 0 - b.lbb.getD i 0 + 1 / 1000)
      else
        (v.getD i 0 - b.lbb.getD i 0) / (b.ubb.getD i 0 - b.lbb.getD i 0))
  else
    (List.range v.length).map (fun i =>
      (v.getD i 0 - (b.bb v).2.2.getD i 0) / ((b.bb v).1.getD i 0 - (b.bb v).2.2.getD i 0))

/-- `BollingerBand::bw`: `(ubb[i] - lbb[i]) / mbb[i]`, cached bands if
present, else transient recomputation. -/
noncomputable def BollingerBand.bw (b : BollingerBand) (v : List ℝ) : List ℝ :=
  if 0 < b.ubb.length then
    (List.range v.length).map (fun i =>
      (b.ubb.getD i 0 - b.lbb.getD i 0) / b.mbb.getD i 0)
  else
    (List.range v.length).map (fun i =>
      ((b.bb v).1.getD i 0 - (b.bb v).2.2.getD i 0) / (b.bb v).2.1.getD i 0)

/-- `BollingerBand::bb` in state-passing form: the Rust receiver is `&self`,
so the operation returns the value together with the unchanged state. -/
noncomputable def BollingerBand.bbS (b : BollingerBand) (v : List ℝ) :
    (List ℝ × List ℝ × List ℝ) × BollingerBand :=
  (b.bb v, b)

/-- `BollingerBand::per_b` in state-passing form (`&self` receiver). -/
noncomputable def BollingerBand.per_bS (b : BollingerBand) (v : List ℝ) :
    List ℝ × BollingerBand :=
  (b.per_b v, b)

/-- `BollingerBand::bw` in state-passing form (`&self` receiver). -/
noncomputable def BollingerBand.bwS (b : BollingerBand) (v : List ℝ) :
    List ℝ × BollingerBand :=
  (b.bw v, b)

/-- `ema` with the bounds check of the Rust indexing made explicit: the body
first executes `result[0] = v[0]`, which indexes position 0 of both buffers
and panics on an empty slice; every later access (`v[i]` and `result[i-1]`
for `1 ≤ i < len`) is in bounds.  `none` models the panic. -/
noncomputable def emaChecked (v : List ℝ) (w : ℕ) : Option (List ℝ) :=
  (v.get? 0).map (fun _ => ema v w)

/-- `sma` with the Rust bounds checks made explicit: the first loop reads
`v[x]` for `x ≤ i < window_size`, in bounds iff `window_size ≤ len` — in
particular on an empty slice any `window_size ≥ 1` reads `v[0]` and panics;
with `window_size = 0` and a non-empty slice the second loop evaluates
`result[0 - 1]`, a `usize` underflow panic.  `none` models the panics. -/
noncomputable def smaChecked (v : List ℝ) (w : ℕ) : Option (List ℝ) :=
  if 0 < w then (if w ≤ v.length then some (sma v w) else none)
  else if v.length = 0 then some [] else none

/-- Reading a map over `List.range` at an in-range index. -/
theorem getD_map_range (f : ℕ → ℝ) (n i : ℕ) (h : i < n) :
    ((List.range n).map f).getD i 0 = f i := by
  rw [List.getD_eq_getElem?_getD, List.getElem?_map, List.getElem?_range h]
  rfl

theorem sma_length (v : List ℝ) (w : ℕ) : (sma v w).length = v.length := by
  simp [sma]

theorem ema_length (v : List ℝ) (w : ℕ) : (ema v w).length = v.length := by
  simp [ema]

theorem mstd_length (v : List ℝ) (w : ℕ) (m : List ℝ) :
    (mstd v w m).length = v.length := by
  simp [mstd]

/-- The sliding-window recurrence of `smaVal` telescopes to the mean of the
trailing window `v[i+1-w ..= i]` (a growing prefix while `i + 1 ≤ w`). -/
theorem smaVal_eq_mean (v : List ℝ) (w : ℕ) (hw : 1 ≤ w) :
    ∀ i, smaVal v w i =
      (∑ j in Finset.Icc (i + 1 - w) i, v.getD j 0) / ((min (i + 1) w : ℕ) : ℝ) := by
  intro i
  induction i with
  | zero =>
    have h1 : (1 : ℕ) - w = 0 := by omega
    have h2 : min 1 w = 1 := by omega
    simp [smaVal, h1, h2]
  | succ k ih =>
    by_cases hk : k + 1 < w
    · have h1 : k + 2 - w = 0 := by omega
      have h2 : min (k + 1 + 1) w = k + 2 := by omega
      rw [smaVal, if_pos hk, h1, h2,
        show Finset.Icc 0 (k + 1) = Finset.range (k + 2) by
          rw [Finset.range_eq_Ico, Nat.Ico_succ_right]]
      push_cast
      ring
    · have hw2 : w ≤ k + 1 := by omega
      have hmin1 : min (k + 1) w = w := by omega
      have hmin2 : min (k + 1 + 1) w = w := by omega
      rw [smaVal, if_neg hk, ih, hmin1, hmin2, div_add_div_same]
      congr 1
      have hA : k + 1 - w ≤ k := by omega
      have hA1 : k + 1 - w + 1 = k + 2 - w := by omega
      have hsplit : ∑ j in Finset.Icc (k + 1 - w) k, v.getD j 0
          = v.getD (k + 1 - w) 0 + ∑ j in Finset.Ioc (k + 1 - w) k, v.getD j 0 := by
        rw [Finset.Icc_eq_cons_Ioc hA, Finset.sum_cons]
      have htop : ∑ j in Finset.Icc (k + 1 + 1 - w) (k + 1), v.getD j 0
          = (∑ j in Finset.Icc (k + 2 - w) k, v.getD j 0) + v.getD (k + 1) 0 := by
        rw [show k + 1 + 1 - w = k + 2 - w from rfl]
        apply Finset.sum_Icc_succ_top
        omega
      have hIoc : Finset.Icc (k + 2 - w) k = Finset.Ioc (k + 1 - w) k := by
        rw [← hA1, Nat.Icc_succ_left]
      rw [hsplit, htop, hIoc]
      ring

/-- C2: for `1 ≤ window ≤ len v`, `sma v window` has the length of `v` and
entry `i` is the arithmetic mean of `v[max (0, i-window+1) ..= i]` — the
growing prefix mean for `i < window - 1`, the true window mean afterwards;
concretely `sma [1,…,10] 3 = [1, 3/2, 2, 3, 4, 5, 6, 7, 8, 9]`. -/
theorem sma_mean_spec (v : List ℝ) (w i : ℕ) (hw : 1 ≤ w) (hwl : w ≤ v.length)
    (hi : i < v.length) :
    ((sma v w).length = v.length ∧
      (sma v w).getD i 0 =
        (∑ j in Finset.Icc (i + 1 - w) i, v.getD j 0) / ((min (i + 1) w : ℕ) : ℝ)) ∧
    sma [1, 2, 3, 4, 5, 6, 7, 8, 9, 10] 3 = [1, 3 / 2, 2, 3, 4, 5, 6, 7, 8, 9] := by
  refine ⟨⟨sma_length v w, ?_⟩, ?_⟩
  · rw [sma, getD_map_range _ _ _ hi, smaVal_eq_mean v w hw]
  · norm_num [sma, smaVal, List.range_succ, Finset.sum_range_succ, List.getD]

theorem sma_mean_spec_witness :
    ((1 : ℕ) ≤ 3 ∧ (3 : ℕ) ≤ ([1, 2, 3, 4, 5, 6, 7, 8, 9, 10] : List ℝ).length ∧
      (4 : ℕ) < ([1, 2, 3, 4, 5, 6, 7, 8, 9, 10] : List ℝ).length) ∧
    (((sma [1, 2, 3, 4, 5, 6, 7, 8, 9, 10] 3).length
        = ([1, 2, 3, 4, 5, 6, 7, 8, 9, 10] : List ℝ).length ∧
      (sma [1, 2, 3, 4, 5, 6, 7, 8, 9, 10] 3).getD 4 0 =
        (∑ j in Finset.Icc (4 + 1 - 3) 4,
          ([1, 2, 3, 4, 5, 6, 7, 8, 9, 10] : List ℝ).getD j 0) /
          ((min (4 + 1) 3 : ℕ) : ℝ)) ∧
    sma [1, 2, 3, 4, 5, 6, 7, 8, 9, 10] 3 = [1, 3 / 2, 2, 3, 4, 5, 6, 7, 8, 9]) :=
  ⟨⟨by norm_num, by norm_num, by norm_num⟩,
    sma_mean_spec [1, 2, 3, 4, 5, 6, 7, 8, 9, 10] 3 4 (by norm_num) (by norm_num)
      (by norm_num)⟩

/-- C3: `ema v w` has the length of `v`, seeds with `result[0] = v[0]`, and
satisfies `result[i] = α·v[i] + (1-α)·result[i-1]` with `α = 2/(w+1)`. -/
theorem ema_recurrence_spec (v : List ℝ) (w i : ℕ) (hv : v ≠ []) (hw : 1 ≤ w)
    (hi : i < v.length) :
    (ema v w).length = v.length ∧
    (ema v w).getD 0 0 = v.getD 0 0 ∧
    (1 ≤ i →
      (ema v w).getD i 0 =
        2 / ((w : ℝ) + 1) * v.getD i 0 +
          (1 - 2 / ((w : ℝ) + 1)) * (ema v w).getD (i - 1) 0) := by
  have hlen : 0 < v.length := List.length_pos.mpr hv
  refine ⟨ema_length v w, ?_, ?_⟩
  · rw [ema, getD_map_range _ _ _ hlen]
    rfl
  · intro h1
    obtain ⟨k, rfl⟩ : ∃ k, i = k + 1 := ⟨i - 1, by omega⟩
    rw [ema, getD_map_range _ _ _ hi,
      show k + 1 - 1 = k from rfl, getD_map_range _ _ _ (by omega : k < v.length)]
    rfl

theorem ema_recurrence_spec_witness :
    (([1, 2] : List ℝ) ≠ [] ∧ (1 : ℕ) ≤ 1 ∧ (1 : ℕ) < ([1, 2] : List ℝ).length) ∧
    ((ema [1, 2] 1).length = ([1, 2] : List ℝ).length ∧
      (ema [1, 2] 1).getD 0 0 = ([1, 2] : List ℝ).getD 0 0 ∧
      (1 ≤ 1 →
        (ema [1, 2] 1).getD 1 0 =
          2 / ((1 : ℕ) + 1 : ℝ) * ([1, 2] : List ℝ).getD 1 0 +
            (1 - 2 / ((1 : ℕ) + 1 : ℝ)) * (ema [1, 2] 1).getD (1 - 1) 0)) :=
  ⟨⟨by simp, by norm_num, by norm_num⟩,
    ema_recurrence_spec [1, 2] 1 1 (by simp) (by norm_num) (by norm_num)⟩

/-- Each `emaVal` output is a convex combination of the observations seen so
far, hence respects any bounds valid on the whole prefix. -/
theorem emaVal_bounds (v : List ℝ) (w : ℕ) (hw : 1 ≤ w) (mlo mhi : ℝ) :
    ∀ i, (∀ j, j ≤ i → mlo ≤ v.getD j 0 ∧ v.getD j 0 ≤ mhi) →
      mlo ≤ emaVal v w i ∧ emaVal v w i ≤ mhi := by
  have hα0 : 0 < 2 / ((w : ℝ) + 1) := by positivity
  have hα1 : 2 / ((w : ℝ) + 1) ≤ 1 := by
    rw [div_le_one (by positivity)]
    have h : (1 : ℝ) ≤ (w : ℝ) := by exact_mod_cast hw
    linarith
  intro i
  induction i with
  | zero =>
    intro hb
    simpa [emaVal] using hb 0 le_rfl
  | succ k ih =>
    intro hb
    have hk := ih (fun j hj => hb j (by omega))
    have hv1 := hb (k + 1) le_rfl
    have h2 : emaVal v w (k + 1)
        = 2 / ((w : ℝ) + 1) * v.getD (k + 1) 0
          + (1 - 2 / ((w : ℝ) + 1)) * emaVal v w k := rfl
    constructor
    · rw [h2]
      nlinarith [mul_nonneg hα0.le (sub_nonneg.mpr hv1.1),
        mul_nonneg (sub_nonneg.mpr hα1) (sub_nonneg.mpr hk.1)]
    · rw [h2]
      nlinarith [mul_nonneg hα0.le (sub_nonneg.mpr hv1.2),
        mul_nonneg (sub_nonneg.mpr hα1) (sub_nonneg.mpr hk.2)]

/-- C7: every `ema` output lies between any lower bound and any upper bound
of the prefix of observations seen so far — in particular between the
minimum and the maximum of that prefix. -/
theorem ema_within_prior_extremes (v : List ℝ) (w i : ℕ) (mlo mhi : ℝ)
    (hv : v ≠ []) (hw : 1 ≤ w) (hi : i < v.length)
    (hlo : ∀ j, j ≤ i → mlo ≤ v.getD j 0) (hhi : ∀ j, j ≤ i → v.getD j 0 ≤ mhi) :
    mlo ≤ (ema v w).getD i 0 ∧ (ema v w).getD i 0 ≤ mhi := by
  rw [ema, getD_map_range _ _ _ hi]
  exact emaVal_bounds v w hw mlo mhi i (fun j hj => ⟨hlo j hj, hhi j hj⟩)

theorem ema_within_prior_extremes_witness :
    (([1, 2] : List ℝ) ≠ [] ∧ (1 : ℕ) ≤ 2 ∧ (1 : ℕ) < ([1, 2] : List ℝ).length ∧
      (∀ j, j ≤ 1 → (1 : ℝ) ≤ ([1, 2] : List ℝ).getD j 0) ∧
      (∀ j, j ≤ 1 → ([1, 2] : List ℝ).getD j 0 ≤ (2 : ℝ))) ∧
    ((1 : ℝ) ≤ (ema [1, 2] 2).getD 1 0 ∧ (ema [1, 2] 2).getD 1 0 ≤ (2 : ℝ)) :=
  ⟨⟨by simp, by norm_num, by norm_num,
      fun j hj => by interval_cases j <;> norm_num [List.getD],
      fun j hj => by interval_cases j <;> norm_num [List.getD]⟩,
    ema_within_prior_extremes [1, 2] 2 1 1 2 (by simp) (by norm_num) (by norm_num)
      (fun j hj => by interval_cases j <;> norm_num [List.getD])
      (fun j hj => by interval_cases j <;> norm_num [List.getD])⟩

/-- The elementwise difference of two maps over the same index range. -/
theorem zipWith_sub_map_range (f g : ℕ → ℝ) (n : ℕ) :
    List.zipWith (fun a b => a - b) ((List.range n).map f) ((List.range n).map g)
      = (List.range n).map (fun i => f i - g i) := by
  rw [List.zipWith_map, List.zipWith_same]

/-- C6: `macd` returns the elementwise difference `ema(v,12) - ema(v,26)`
paired with its 9-period `ema` (the signal line), both of the input's
length. -/
theorem macd_spec (v : List ℝ) (i : ℕ) (hv : v ≠ []) (hi : i < v.length) :
    (macd v).1.length = v.length ∧
    (macd v).2.length = v.length ∧
    (macd v).1.getD i 0 = (ema v 12).getD i 0 - (ema v 26).getD i 0 ∧
    (macd v).2 = ema (macd v).1 9 := by
  have hm : (macd v).1 = (List.range v.length).map
      (fun j => emaVal v 12 j - emaVal v 26 j) := by
    show List.zipWith _ (ema v 12) (ema v 26) = _
    rw [ema, ema, zipWith_sub_map_range]
  have hsig : (macd v).2 = ema (macd v).1 9 := rfl
  refine ⟨?_, ?_, ?_, hsig⟩
  · rw [hm]
    simp
  · rw [hsig, ema_length, hm]
    simp
  · rw [hm, getD_map_range _ _ _ hi, ema, getD_map_range _ _ _ hi, ema,
      getD_map_range _ _ _ hi]

theorem macd_spec_witness :
    (([1] : List ℝ) ≠ [] ∧ (0 : ℕ) < ([1] : List ℝ).length) ∧
    ((macd [1]).1.length = ([1] : List ℝ).length ∧
      (macd [1]).2.length = ([1] : List ℝ).length ∧
      (macd [1]).1.getD 0 0 = (ema [1] 12).getD 0 0 - (ema [1] 26).getD 0 0 ∧
      (macd [1]).2 = ema (macd [1]).1 9) :=
  ⟨⟨by simp, by norm_num⟩, macd_spec [1] 0 (by simp) (by norm_num)⟩

/-- Reindexing the trailing-window sum `x ↦ i - x` onto the index interval
`[i+1-w, i]`. -/
theorem sum_range_reflect_window (f : ℕ → ℝ) (i : ℕ) :
    ∀ w, w ≤ i + 1 →
      ∑ x in Finset.range w, f (i - x) = ∑ j in Finset.Icc (i + 1 - w) i, f j := by
  intro w
  induction w with
  | zero =>
    intro _
    simp
  | succ k ih =>
    intro h
    rw [Finset.sum_range_succ, ih (by omega),
      show i + 1 - (k + 1) = i - k by omega,
      Finset.Icc_eq_cons_Ioc (by omega : i - k ≤ i), Finset.sum_cons,
      ← Nat.Icc_succ_left, show (i - k).succ = i + 1 - k by omega]
    ring

/-- C4: `mstd v w m` has the length of `v`, stays `0` on the indices below
`w - 1`, and from `w - 1` on equals the square root of the population
variance of the trailing `w` values of `v` centered on `m[i]` (the mean at
the end index `i`, not each sub-window's own mean). -/
theorem mstd_spec (v m : List ℝ) (w i : ℕ) (hw : 1 ≤ w) (hwl : w ≤ v.length)
    (hm : m.length = v.length) (hi : i < v.length) :
    (mstd v w m).length = v.length ∧
    (i < w - 1 → (mstd v w m).getD i 0 = 0) ∧
    (w - 1 ≤ i → (mstd v w m).getD i 0 =
      Real.sqrt ((∑ j in Finset.Icc (i + 1 - w) i, (v.getD j 0 - m.getD i 0) ^ 2)
        / (w : ℝ))) := by
  refine ⟨mstd_length v w m, ?_, ?_⟩
  · intro hlt
    rw [mstd, getD_map_range _ _ _ hi, mstdVal, if_neg (by omega)]
  · intro hge
    rw [mstd, getD_map_range _ _ _ hi, mstdVal, if_pos hge,
      sum_range_reflect_window (fun j => (v.getD j 0 - m.getD i 0) ^ 2) i w (by omega)]

theorem mstd_spec_witness :
    ((1 : ℕ) ≤ 1 ∧ (1 : ℕ) ≤ ([1, 1] : List ℝ).length ∧
      ([1, 1] : List ℝ).length = ([1, 1] : List ℝ).length ∧
      (0 : ℕ) < ([1, 1] : List ℝ).length) ∧
    ((mstd [1, 1] 1 [1, 1]).length = ([1, 1] : List ℝ).length ∧
      (0 < 1 - 1 → (mstd [1, 1] 1 [1, 1]).getD 0 0 = 0) ∧
      (1 - 1 ≤ 0 → (mstd [1, 1] 1 [1, 1]).getD 0 0 =
        Real.sqrt ((∑ j in Finset.Icc (0 + 1 - 1) 0,
          (([1, 1] : List ℝ).getD j 0 - ([1, 1] : List ℝ).getD 0 0) ^ 2)
          / ((1 : ℕ) : ℝ)))) :=
  ⟨⟨by norm_num, by norm_num, rfl, by norm_num⟩,
    mstd_spec [1, 1] [1, 1] 1 0 (by norm_num) (by norm_num) rfl (by norm_num)⟩

/-- C5: `bollinger_band` produces `upper[i] = mean[i] + amplitude·stdev[i]`
and `lower[i] = mean[i] - amplitude·stdev[i]`, both of the input's length,
so `upper[i] - lower[i] = 2·amplitude·stdev[i]` exactly. -/
theorem bollinger_band_spec (v s m : List ℝ) (a : ℝ) (i : ℕ)
    (hs : s.length = v.length) (hm : m.length = v.length) (hi : i < v.length) :
    (bollinger_band v a s m).1.length = v.length ∧
    (bollinger_band v a s m).2.length = v.length ∧
    (bollinger_band v a s m).1.getD i 0 = s.getD i 0 + a * m.getD i 0 ∧
    (bollinger_band v a s m).2.getD i 0 = s.getD i 0 - a * m.getD i 0 ∧
    (bollinger_band v a s m).1.getD i 0 - (bollinger_band v a s m).2.getD i 0
      = 2 * a * m.getD i 0 := by
  have hu : (bollinger_band v a s m).1.getD i 0 = s.getD i 0 + a * m.getD i 0 :=
    getD_map_range _ _ _ hi
  have hl : (bollinger_band v a s m).2.getD i 0 = s.getD i 0 - a * m.getD i 0 :=
    getD_map_range _ _ _ hi
  refine ⟨by simp [bollinger_band], by simp [bollinger_band], hu, hl, ?_⟩
  rw [hu, hl]
  ring

theorem bollinger_band_spec_witness :
    (([10] : List ℝ).length = ([10] : List ℝ).length ∧
      ([0] : List ℝ).length = ([10] : List ℝ).length ∧
      (0 : ℕ) < ([10] : List ℝ).length) ∧
    ((bollinger_band [10] 2 [10] [0]).1.length = ([10] : List ℝ).length ∧
      (bollinger_band [10] 2 [10] [0]).2.length = ([10] : List ℝ).length ∧
      (bollinger_band [10] 2 [10] [0]).1.getD 0 0 =
        ([10] : List ℝ).getD 0 0 + 2 * ([0] : List ℝ).getD 0 0 ∧
      (bollinger_band [10] 2 [10] [0]).2.getD 0 0 =
        ([10] : List ℝ).getD 0 0 - 2 * ([0] : List ℝ).getD 0 0 ∧
      (bollinger_band [10] 2 [10] [0]).1.getD 0 0 -
          (bollinger_band [10] 2 [10] [0]).2.getD 0 0 =
        2 * 2 * ([0] : List ℝ).getD 0 0) :=
  ⟨⟨rfl, by norm_num, by norm_num⟩,
    bollinger_band_spec [10] [10] [0] 2 0 rfl (by norm_num) (by norm_num)⟩

theorem bb_lengths (b : BollingerBand) (v : List ℝ) :
    (b.bb v).1.length = v.length ∧ (b.bb v).2.1.length = v.length ∧
    (b.bb v).2.2.length = v.length := by
  refine ⟨?_, ?_, ?_⟩ <;> simp [BollingerBand.bb, bollinger_band, sma]

/-- C8: after `bb_mut v` (under the module precondition
`1 ≤ period ≤ len v`) the three cached series all have the input's length,
and the invariant survives the subsequent read-only operations `per_b`,
`bw`, `bb`, which return the aggregate unchanged. -/
theorem bb_mut_cached_lengths (b : BollingerBand) (v v2 : List ℝ)
    (hp : 1 ≤ b.period) (hpl : b.period ≤ v.length) :
    ((b.bb_mut v).ubb.length = v.length ∧
      (b.bb_mut v).mbb.length = v.length ∧
      (b.bb_mut v).lbb.length = v.length) ∧
    (((b.bb_mut v).per_bS v2).2.ubb.length = v.length ∧
      ((b.bb_mut v).bwS v2).2.mbb.length = v.length ∧
      ((b.bb_mut v).bbS v2).2.lbb.length = v.length) := by
  have h := bb_lengths b v
  exact ⟨⟨h.1, h.2.1, h.2.2⟩, ⟨h.1, h.2.1, h.2.2⟩⟩

theorem bb_mut_cached_lengths_witness :
    ((1 : ℕ) ≤ (⟨1, 2, [], [], []⟩ : BollingerBand).period ∧
      (⟨1, 2, [], [], []⟩ : BollingerBand).period ≤ ([5] : List ℝ).length) ∧
    ((((⟨1, 2, [], [], []⟩ : BollingerBand).bb_mut [5]).ubb.length
        = ([5] : List ℝ).length ∧
      ((⟨1, 2, [], [], []⟩ : BollingerBand).bb_mut [5]).mbb.length
        = ([5] : List ℝ).length ∧
      ((⟨1, 2, [], [], []⟩ : BollingerBand).bb_mut [5]).lbb.length
        = ([5] : List ℝ).length) ∧
    ((((⟨1, 2, [], [], []⟩ : BollingerBand).bb_mut [5]).per_bS [5]).2.ubb.length
        = ([5] : List ℝ).length ∧
      (((⟨1, 2, [], [], []⟩ : BollingerBand).bb_mut [5]).bwS [5]).2.mbb.length
        = ([5] : List ℝ).length ∧
      (((⟨1, 2, [], [], []⟩ : BollingerBand).bb_mut [5]).bbS [5]).2.lbb.length
        = ([5] : List ℝ).length)) :=
  ⟨⟨by norm_num, by norm_num⟩,
    bb_mut_cached_lengths ⟨1, 2, [], [], []⟩ [5] [5] (by norm_num) (by norm_num)⟩

/-- C10: `bb_mut` replaces exactly the three cached band series with the
result of `bb` and leaves the configuration fields `period` and `amplitude`
unchanged, while the `&self` operations `bb`, `per_b` and `bw` return the
aggregate with all five fields unchanged. -/
theorem bb_mut_frame (b : BollingerBand) (v : List ℝ) :
    (b.bb_mut v).period = b.period ∧
    (b.bb_mut v).amplitude = b.amplitude ∧
    (b.bb_mut v).ubb = (b.bb v).1 ∧
    (b.bb_mut v).mbb = (b.bb v).2.1 ∧
    (b.bb_mut v).lbb = (b.bb v).2.2 ∧
    (b.bbS v).2 = b ∧ (b.per_bS v).2 = b ∧ (b.bwS v).2 = b :=
  ⟨rfl, rfl, rfl, rfl, rfl, rfl, rfl, rfl⟩

/-- C9: on the empty input series `ema` (any window) and `sma` (any window
`≥ 1`) index position 0 of a zero-length buffer: the checked models return
`none` (the Rust code panics) instead of an empty output series, while
inputs meeting the non-empty (resp. `window ≤ len`) precondition succeed. -/
theorem empty_input_not_total (w : ℕ) (hw : 1 ≤ w) :
    emaChecked [] w = none ∧
    smaChecked [] w = none ∧
    (∀ v : List ℝ, v ≠ [] → emaChecked v w = some (ema v w)) ∧
    (∀ v : List ℝ, w ≤ v.length → smaChecked v w = some (sma v w)) := by
  refine ⟨rfl, ?_, ?_, ?_⟩
  · have h0 : ¬ (w ≤ ([] : List ℝ).length) := by
      simp only [List.length_nil, Nat.le_zero]
      omega
    rw [smaChecked, if_pos (show 0 < w by omega), if_neg h0]
  · intro v hv
    obtain ⟨x, xs, rfl⟩ := List.exists_cons_of_ne_nil hv
    rfl
  · intro v hvl
    rw [smaChecked, if_pos (show 0 < w by omega), if_pos hvl]

theorem empty_input_not_total_witness :
    (1 : ℕ) ≤ 1 ∧
    (emaChecked [] 1 = none ∧
      smaChecked [] 1 = none ∧
      (∀ v : List ℝ, v ≠ [] → emaChecked v 1 = some (ema v 1)) ∧
      (∀ v : List ℝ, 1 ≤ v.length → smaChecked v 1 = some (sma v 1))) :=
  ⟨by norm_num, empty_input_not_total 1 (by norm_num)⟩

/-- C1 (amended): the per-index epsilon guard of `per_b` applies in the
cached state: when the cached `ubb` is non-empty and `ubb[i] == lbb[i]`,
entry `i` equals `(v[i] - lbb[i]) / (ubb[i] - lbb[i] + 1e-3)` and that
denominator equals `1e-3`, hence is nonzero; in the uncached transient path
no epsilon is added (see `per_b_transient_no_epsilon_cex`). -/
theorem per_b_epsilon_cached (b : BollingerBand) (v : List ℝ) (i : ℕ)
    (hi : i < v.length) (hc : 0 < b.ubb.length)
    (h : b.ubb.getD i 0 = b.lbb.getD i 0) :
    (b.per_b v).getD i 0 =
      (v.getD i 0 - b.lbb.getD i 0) / (b.ubb.getD i 0 - b.lbb.getD i 0 + 1 / 1000) ∧
    b.ubb.getD i 0 - b.lbb.getD i 0 + 1 / 1000 ≠ 0 := by
  constructor
  · rw [BollingerBand.per_b, if_pos hc, getD_map_range _ _ _ hi, if_pos h]
  · rw [h]
    norm_num

theorem per_b_epsilon_cached_witness :
    ((0 : ℕ) < ([10] : List ℝ).length ∧
      0 < (⟨1, 2, [10], [10], [10]⟩ : BollingerBand).ubb.length ∧
      (⟨1, 2, [10], [10], [10]⟩ : BollingerBand).ubb.getD 0 0 =
        (⟨1, 2, [10], [10], [10]⟩ : BollingerBand).lbb.getD 0 0) ∧
    (((⟨1, 2, [10], [10], [10]⟩ : BollingerBand).per_b [10]).getD 0 0 =
      (([10] : List ℝ).getD 0 0 -
          (⟨1, 2, [10], [10], [10]⟩ : BollingerBand).lbb.getD 0 0) /
        ((⟨1, 2, [10], [10], [10]⟩ : BollingerBand).ubb.getD 0 0 -
          (⟨1, 2, [10], [10], [10]⟩ : BollingerBand).lbb.getD 0 0 + 1 / 1000) ∧
      (⟨1, 2, [10], [10], [10]⟩ : BollingerBand).ubb.getD 0 0 -
          (⟨1, 2, [10], [10], [10]⟩ : BollingerBand).lbb.getD 0 0 + 1 / 1000 ≠ 0) :=
  ⟨⟨by norm_num, by norm_num, rfl⟩,
    per_b_epsilon_cached ⟨1, 2, [10], [10], [10]⟩ [10] 0 (by norm_num) (by norm_num) rfl⟩

/-- C1 (counterexample): in the uncached state `per_b` recomputes the bands
transiently and divides WITHOUT the epsilon guard.  For the aggregate
`period = 2, amplitude = 0` (never cached) and `v = [1, 2]` the transient
bands coincide at index 1 (`ubb[1] = lbb[1] = 3/2`, zero dispersion), yet
`per_b` divides `v[1] - lbb[1] = 1/2` by the exact zero `ubb[1] - lbb[1]`
(junk value `0` in the real-valued model, `inf` in Rust `f64`) instead of
returning the epsilon-guarded value
`(v[1] - lbb[1]) / (ubb[1] - lbb[1] + 1e-3) = 500`. -/
theorem per_b_transient_no_epsilon_cex :
    ((⟨2, 0, [], [], []⟩ : BollingerBand).bb [1, 2]).1.getD 1 0 =
      ((⟨2, 0, [], [], []⟩ : BollingerBand).bb [1, 2]).2.2.getD 1 0 ∧
    ((⟨2, 0, [], [], []⟩ : BollingerBand).per_b [1, 2]).getD 1 0 = 0 ∧
    (([1, 2] : List ℝ).getD 1 0 -
        ((⟨2, 0, [], [], []⟩ : BollingerBand).bb [1, 2]).2.2.getD 1 0) /
      (((⟨2, 0, [], [], []⟩ : BollingerBand).bb [1, 2]).1.getD 1 0 -
        ((⟨2, 0, [], [], []⟩ : BollingerBand).bb [1, 2]).2.2.getD 1 0 + 1 / 1000)
      = 500 ∧
    ((⟨2, 0, [], [], []⟩ : BollingerBand).per_b [1, 2]).getD 1 0 ≠
      (([1, 2] : List ℝ).getD 1 0 -
          ((⟨2, 0, [], [], []⟩ : BollingerBand).bb [1, 2]).2.2.getD 1 0) /
        (((⟨2, 0, [], [], []⟩ : BollingerBand).bb [1, 2]).1.getD 1 0 -
          ((⟨2, 0, [], [], []⟩ : BollingerBand).bb [1, 2]).2.2.getD 1 0 + 1 / 1000) := by
  have hbb : ((⟨2, 0, [], [], []⟩ : BollingerBand).bb [1, 2]).1.getD 1 0 = 3 / 2 ∧
      ((⟨2, 0, [], [], []⟩ : BollingerBand).bb [1, 2]).2.2.getD 1 0 = 3 / 2 := by
    constructor <;>
      norm_num [BollingerBand.bb, bollinger_band, sma, smaVal, List.range_succ,
        Finset.sum_range_succ, List.getD]
  have hpb : ((⟨2, 0, [], [], []⟩ : BollingerBand).per_b [1, 2]).getD 1 0 = 0 := by
    norm_num [BollingerBand.per_b, BollingerBand.bb, bollinger_band, sma, smaVal,
      List.range_succ, Finset.sum_range_succ, List.getD]
  refine ⟨by rw [hbb.1, hbb.2], hpb, ?_, ?_⟩
  · rw [hbb.1, hbb.2]
    norm_num [List.getD]
  · rw [hbb.1, hbb.2, hpb]
    norm_num [List.getD]
